import Mathlib

/-!
Shallow embedding of the Mueller-matrix polarization library
(`include/mitsuba/render/mueller.h`) over the real numbers, together with
proofs of its basic algebraic properties.

Mueller matrices are modelled as 4×4 real matrices.  Stokes vectors are, as in
the source, 4×4 matrices whose columns 1–3 are zero.  The external
collaborators declared outside this header (`fresnel_polarized`,
`sincos_arg_diff`, `unit_angle`) are modelled from their documented contracts;
`fresnel_polarized` is passed in as an explicit function parameter so that all
results hold for an arbitrary Fresnel solver satisfying the stated contract.
-/

open Matrix

namespace mueller

/-- Mueller matrices: 4×4 matrices over the (real) scalar type. -/
abbrev M4 := Matrix (Fin 4) (Fin 4) ℝ

/-- Three-dimensional real vectors, used for propagation directions and Stokes
reference basis vectors. -/
structure Vec3 where
  x : ℝ
  y : ℝ
  z : ℝ

instance : Zero Vec3 :=
  ⟨⟨0, 0, 0⟩⟩

theorem Vec3.zero_def : (0 : Vec3) = ⟨0, 0, 0⟩ := rfl

/-- Euclidean dot product of two 3-vectors. -/
def dot (a b : Vec3) : ℝ :=
  a.x * b.x + a.y * b.y + a.z * b.z

/-- Cross product of two 3-vectors. -/
def cross (a b : Vec3) : Vec3 :=
  ⟨a.y * b.z - a.z * b.y, a.z * b.x - a.x * b.z, a.x * b.y - a.y * b.x⟩

/-- Euclidean norm of a 3-vector. -/
noncomputable def vnorm (a : Vec3) : ℝ :=
  Real.sqrt (dot a a)

/-- Normalization of a 3-vector (division by its norm). -/
noncomputable def normalize (a : Vec3) : Vec3 :=
  ⟨a.x / vnorm a, a.y / vnorm a, a.z / vnorm a⟩

/-- Modelled from the spec: `unit_angle(a, b)` is an external collaborator (the
core math header is not part of this file's source) returning the numerically
stable angle between two unit vectors, i.e. the arccosine of their dot
product. -/
noncomputable def unit_angle (a b : Vec3) : ℝ :=
  Real.arccos (dot a b)

/-- Mueller matrix of an ideal depolarizer: zero except entry `(0,0) = value`. -/
def depolarizer (value : ℝ) : M4 :=
  !![value, 0, 0, 0;
     0, 0, 0, 0;
     0, 0, 0, 0;
     0, 0, 0, 0]

/-- Mueller matrix of a linear polarizer transmitting linear polarization at
0 degrees. -/
def linear_polarizer (value : ℝ) : M4 :=
  let a := value * 0.5
  !![a, a, 0, 0;
     a, a, 0, 0;
     0, 0, 0, 0;
     0, 0, 0, 0]

/-- Mueller matrix of a linear retarder with its fast axis aligned vertically
and phase difference `phase` between the fast and slow axis. -/
noncomputable def linear_retarder (phase : ℝ) : M4 :=
  let s := Real.sin phase
  let c := Real.cos phase
  !![1, 0, 0, 0;
     0, 1, 0, 0;
     0, 0, c, -s;
     0, 0, s, c]

/-- Mueller matrix of a linear diattenuator attenuating the electric field
components at 0 and 90 degrees by `x` and `y` respectively. -/
noncomputable def diattenuator (x y : ℝ) : M4 :=
  let a := 0.5 * (x + y)
  let b := 0.5 * (x - y)
  let c := Real.sqrt (x * y)
  !![a, b, 0, 0;
     b, a, 0, 0;
     0, 0, c, 0;
     0, 0, 0, c]

/-- Mueller matrix of an ideal rotator performing a counter-clockwise rotation
of the electric field by `theta` radians, built from `sincos(2·theta)`. -/
noncomputable def rotator (theta : ℝ) : M4 :=
  let s := Real.sin (2 * theta)
  let c := Real.cos (2 * theta)
  !![1, 0, 0, 0;
     0, c, s, 0;
     0, -s, c, 0;
     0, 0, 0, 1]

/-- Applies a counter-clockwise rotation by `theta` to the Mueller matrix of a
given element: `Rᵀ · M · R` with `R = rotator theta`. -/
noncomputable def rotated_element (theta : ℝ) (M : M4) : M4 :=
  let R := rotator theta
  Rᵀ * M * R

/-- Reverses the direction of propagation of the electric field:
left-multiplication by the explicit matrix `diag(1,1,-1,-1)`. -/
def reverse (M : M4) : M4 :=
  !![1, 0, 0, 0;
     0, 1, 0, 0;
     0, 0, -1, 0;
     0, 0, 0, -1] * M

/-- Modelled from the spec: the result record of the external Fresnel
collaborator `fresnel_polarized(cos_theta_i, eta)` — complex s/p reflection
amplitudes, the transmitted cosine and the two relative-index ratios. -/
structure FresnelResult where
  a_s : ℂ
  a_p : ℂ
  cos_theta_t : ℝ
  eta_it : ℝ
  eta_ti : ℝ

/-- Modelled from the spec: `sincos_arg_diff(a, b)` is an external collaborator
returning the sine and cosine of the phase-angle difference between two
complex amplitudes. -/
noncomputable def sincos_arg_diff (a b : ℂ) : ℝ × ℝ :=
  (Real.sin (Complex.arg a - Complex.arg b), Real.cos (Complex.arg a - Complex.arg b))

/-- The joint reflectance `c = sqrt(r_s · r_p)` computed in
`specular_reflection` from the Fresnel amplitudes, with `r_s = |a_s²|` and
`r_p = |a_p²|`. -/
noncomputable def joint_reflectance (a_s a_p : ℂ) : ℝ :=
  Real.sqrt (Complex.abs (a_s ^ 2) * Complex.abs (a_p ^ 2))

/-- The `sin_delta` value used by `specular_reflection` after the masked
assignment `masked(sin_delta, eq(c, 0)) = 0` that avoids NaN propagation. -/
noncomputable def masked_sin_delta (a_s a_p : ℂ) : ℝ :=
  if joint_reflectance a_s a_p = 0 then 0 else (sincos_arg_diff a_s a_p).1

/-- The `cos_delta` value used by `specular_reflection` after the masked
assignment `masked(cos_delta, eq(c, 0)) = 0` that avoids NaN propagation. -/
noncomputable def masked_cos_delta (a_s a_p : ℂ) : ℝ :=
  if joint_reflectance a_s a_p = 0 then 0 else (sincos_arg_diff a_s a_p).2

/-- Mueller matrix of a specular reflection at an interface, for a given
Fresnel collaborator `fresnel`, incidence cosine and (possibly complex)
relative refractive index. -/
noncomputable def specular_reflection (fresnel : ℝ → ℂ → FresnelResult)
    (cos_theta_i : ℝ) (eta : ℂ) : M4 :=
  let fr := fresnel cos_theta_i eta
  let r_s := Complex.abs (fr.a_s ^ 2)
  let r_p := Complex.abs (fr.a_p ^ 2)
  let a := 0.5 * (r_s + r_p)
  let b := 0.5 * (r_s - r_p)
  let c := joint_reflectance fr.a_s fr.a_p
  let sin_delta := masked_sin_delta fr.a_s fr.a_p
  let cos_delta := masked_cos_delta fr.a_s fr.a_p
  !![a, b, 0, 0;
     b, a, 0, 0;
     0, 0, c * cos_delta, c * sin_delta;
     0, 0, -(c * sin_delta), c * cos_delta]

/-- Radiometric unit-conversion factor of `specular_transmission`:
`-eta_it · (cos_theta_t / cos_theta_i)`, with the division replaced by `0`
unless `|cos_theta_i| > 1e-8`. -/
noncomputable def transmission_factor (fr : FresnelResult) (cos_theta_i : ℝ) : ℝ :=
  -fr.eta_it * (if |cos_theta_i| > 1e-8 then fr.cos_theta_t / cos_theta_i else 0)

/-- Mueller matrix of a specular transmission at an interface, for a given
Fresnel collaborator `fresnel`, incidence cosine and real relative refractive
index. -/
noncomputable def specular_transmission (fresnel : ℝ → ℝ → FresnelResult)
    (cos_theta_i eta : ℝ) : M4 :=
  let fr := fresnel cos_theta_i eta
  let factor := transmission_factor fr cos_theta_i
  let a_s_r := fr.a_s.re + 1
  let a_p_r := (1 - fr.a_p.re) * fr.eta_ti
  let t_s := a_s_r ^ 2
  let t_p := a_p_r ^ 2
  let a := 0.5 * factor * (t_s + t_p)
  let b := 0.5 * factor * (t_s - t_p)
  let c := factor * Real.sqrt (t_s * t_p)
  !![a, b, 0, 0;
     b, a, 0, 0;
     0, 0, c, 0;
     0, 0, 0, c]

/-- Mueller matrix aligning the reference frames of two collinear Stokes
vectors: `rotator theta` where `theta` is the angle between the normalized
bases, negated when the signed triple product is negative. -/
noncomputable def rotate_stokes_basis (forward basis_current basis_target : Vec3) : M4 :=
  let theta0 := unit_angle (normalize basis_current) (normalize basis_target)
  let theta :=
    if dot forward (cross basis_current basis_target) < 0 then theta0 * (-1) else theta0
  rotator theta

/-- Re-expresses the Mueller matrix `M` with respect to new input and output
reference frames, rotating the two frames independently:
`R_out · M · R_inᵀ`. -/
noncomputable def rotate_mueller_basis (M : M4)
    (in_forward in_basis_current in_basis_target : Vec3)
    (out_forward out_basis_current out_basis_target : Vec3) : M4 :=
  let R_in := rotate_stokes_basis in_forward in_basis_current in_basis_target
  let R_out := rotate_stokes_basis out_forward out_basis_current out_basis_target
  R_out * M * R_inᵀ

/-- Re-expresses the Mueller matrix `M` with respect to a new reference frame,
applying the same rotation to the input and output frames: `R · M · Rᵀ`. -/
noncomputable def rotate_mueller_basis_collinear (M : M4)
    (forward basis_current basis_target : Vec3) : M4 :=
  let R := rotate_stokes_basis forward basis_current basis_target
  R * M * Rᵀ

/-- The representation invariant of Stokes vectors encoded as Mueller
matrices: only the first column is populated. -/
def IsStokes (S : M4) : Prop :=
  ∀ i j : Fin 4, j ≠ 0 → S i j = 0

lemma rotator_zero : rotator 0 = 1 := by
  ext i j
  fin_cases i <;> fin_cases j <;>
    simp [rotator, Matrix.one_apply, Matrix.vecHead, Matrix.vecTail]

lemma rotator_mul (a b : ℝ) : rotator a * rotator b = rotator (a + b) := by
  have h2 : 2 * (a + b) = 2 * a + 2 * b := by ring
  ext i j
  fin_cases i <;> fin_cases j <;>
    simp [rotator, Matrix.mul_apply, Fin.sum_univ_four, h2, Real.cos_add,
      Real.sin_add, Matrix.vecHead, Matrix.vecTail] <;>
    ring

lemma rotator_transpose (a : ℝ) : (rotator a)ᵀ = rotator (-a) := by
  ext i j
  fin_cases i <;> fin_cases j <;>
    simp [rotator, Matrix.transpose_apply, mul_neg, Real.sin_neg, Real.cos_neg,
      Matrix.vecHead, Matrix.vecTail]

/-- Claim C2: `rotator θ · rotator (−θ) = 1`, `rotated_element 0 M = M`, and
`rotated_element θ (rotated_element (−θ) M) = M` for all `θ` and `M`. -/
theorem rotator_rotated_element_inverse (theta : ℝ) (M : M4) :
    rotator theta * rotator (-theta) = 1 ∧
    rotated_element 0 M = M ∧
    rotated_element theta (rotated_element (-theta) M) = M := by
  have hpos : rotator theta * rotator (-theta) = 1 := by
    rw [rotator_mul]
    simp [rotator_zero]
  have hneg : rotator (-theta) * rotator theta = 1 := by
    rw [rotator_mul]
    simp [rotator_zero]
  refine ⟨hpos, ?_, ?_⟩
  · simp [rotated_element, rotator_zero, Matrix.transpose_one]
  · simp only [rotated_element, rotator_transpose, neg_neg]
    have hassoc :
        rotator (-theta) * (rotator theta * M * rotator (-theta)) * rotator theta =
          rotator (-theta) * rotator theta * M * (rotator (-theta) * rotator theta) := by
      simp only [Matrix.mul_assoc]
    rw [hassoc, hneg, Matrix.one_mul, Matrix.mul_one]

/-- Claim C3 (counterexample): the claim places the rotation block of
`rotator` on component indices 2 and 3, which would force entry `(1,1)` to be
the identity entry `1`; at `theta = π/4` that entry is in fact `cos(π/2) = 0`. -/
theorem rotator_block_location_counterexample :
    rotator (Real.pi / 4) 1 1 = 0 ∧ rotator (Real.pi / 4) 1 1 ≠ 1 := by
  have h2 : 2 * (Real.pi / 4) = Real.pi / 2 := by ring
  have h : rotator (Real.pi / 4) 1 1 = 0 := by
    simp [rotator, h2, Real.cos_pi_div_two, Matrix.vecHead, Matrix.vecTail]
  exact ⟨h, by rw [h]; norm_num⟩

/-- Claim C3 (amended): `rotator θ` equals the identity matrix except for a
2×2 rotation block built from `(sin 2θ, cos 2θ)` occupying the rows and
columns of the Stokes vector's horizontal/vertical-linear and ±45°-linear
components (component indices 1 and 2), with identity entries elsewhere. -/
theorem rotator_entries (theta : ℝ) (i j : Fin 4) :
    rotator theta i j =
      if i = 1 ∧ j = 1 ∨ i = 2 ∧ j = 2 then Real.cos (2 * theta)
      else if i = 1 ∧ j = 2 then Real.sin (2 * theta)
      else if i = 2 ∧ j = 1 then -Real.sin (2 * theta)
      else if i = j then 1
      else 0 := by
  fin_cases i <;> fin_cases j <;>
    simp [rotator, Matrix.vecHead, Matrix.vecTail]

/-- Claim C7: `reverse M` is left multiplication by `diag(1,1,−1,−1)`, and
`reverse` is an involution. -/
theorem reverse_diag_involutive (M : M4) :
    reverse M = Matrix.diagonal ![1, 1, -1, -1] * M ∧ reverse (reverse M) = M := by
  constructor
  · unfold reverse
    congr 1
    ext i j
    fin_cases i <;> fin_cases j <;>
      simp [Matrix.diagonal_apply, Matrix.vecHead, Matrix.vecTail]
  · unfold reverse
    rw [← Matrix.mul_assoc]
    have h :
        (!![1, 0, 0, 0;
            0, 1, 0, 0;
            0, 0, -1, 0;
            0, 0, 0, -1] : M4) *
          !![1, 0, 0, 0;
             0, 1, 0, 0;
             0, 0, -1, 0;
             0, 0, 0, -1] = 1 := by
      ext i j
      fin_cases i <;> fin_cases j <;>
        simp [Matrix.mul_apply, Fin.sum_univ_four, Matrix.one_apply,
          Matrix.vecHead, Matrix.vecTail]
    rw [h, Matrix.one_mul]

/-- Claim C9: the half-wave plate `linear_retarder π` maps the 45°-linear
Stokes vector `[1,0,1,0]` to `[1,0,−1,0]`, and applying it twice is the
identity on every Stokes vector. -/
theorem linear_retarder_half_wave :
    (linear_retarder Real.pi).mulVec ![1, 0, 1, 0] = ![1, 0, -1, 0] ∧
    ∀ v : Fin 4 → ℝ,
      (linear_retarder Real.pi).mulVec ((linear_retarder Real.pi).mulVec v) = v := by
  constructor
  · funext i
    fin_cases i <;>
      simp [linear_retarder, Matrix.mulVec, Matrix.dotProduct, Fin.sum_univ_four,
        Real.cos_pi, Real.sin_pi, Matrix.vecHead, Matrix.vecTail]
  · intro v
    funext i
    fin_cases i <;>
      simp [linear_retarder, Matrix.mulVec, Matrix.dotProduct, Fin.sum_univ_four,
        Real.cos_pi, Real.sin_pi, Matrix.vecHead, Matrix.vecTail]

/-- Claim C10: multiplying any 4×4 Mueller matrix with a matrix satisfying the
Stokes-vector representation invariant (columns 1–3 zero) again satisfies the
invariant. -/
theorem stokes_shape_preserved (M S : M4) (hS : IsStokes S) : IsStokes (M * S) := by
  intro i j hj
  rw [Matrix.mul_apply]
  apply Finset.sum_eq_zero
  intro k _
  rw [hS k j hj, mul_zero]

/-- Claim C10 (witness): the depolarizer, viewed as a Stokes-shaped matrix,
keeps its shape under multiplication by `rotator 0`. -/
theorem stokes_shape_preserved_witness :
    IsStokes (depolarizer 1) ∧ IsStokes (rotator 0 * depolarizer 1) := by
  have h : IsStokes (depolarizer 1) := by
    intro i j hj
    fin_cases i <;> fin_cases j <;>
      simp_all [depolarizer, Matrix.vecHead, Matrix.vecTail]
  exact ⟨h, stokes_shape_preserved (rotator 0) (depolarizer 1) h⟩

lemma dot_self_pos (v : Vec3) (h : v ≠ 0) : 0 < dot v v := by
  rcases v with ⟨x, y, z⟩
  simp only [dot]
  by_contra hc
  push_neg at hc
  have hx := mul_self_nonneg x
  have hy := mul_self_nonneg y
  have hz := mul_self_nonneg z
  have hx0 : x = 0 := mul_self_eq_zero.mp (le_antisymm (by linarith) hx)
  have hy0 : y = 0 := mul_self_eq_zero.mp (le_antisymm (by linarith) hy)
  have hz0 : z = 0 := mul_self_eq_zero.mp (le_antisymm (by linarith) hz)
  exact h (by simp [Vec3.zero_def, hx0, hy0, hz0])

lemma dot_normalize_self (v : Vec3) (h : v ≠ 0) : dot (normalize v) (normalize v) = 1 := by
  have hS : 0 < dot v v := dot_self_pos v h
  have h1 : vnorm v * vnorm v = dot v v := Real.mul_self_sqrt hS.le
  have hn0 : vnorm v ≠ 0 := by
    intro h0
    rw [h0, mul_zero] at h1
    exact absurd h1.symm (ne_of_gt hS)
  simp only [dot] at h1
  simp only [normalize, dot]
  field_simp
  linarith [h1]

lemma cross_self (v : Vec3) : cross v v = 0 := by
  simp only [cross, Vec3.zero_def, Vec3.mk.injEq]
  refine ⟨by ring, by ring, by ring⟩

/-- Claim C1: for a unit `forward` and nonzero bases orthogonal to it,
`rotate_stokes_basis` returns `rotator θ` where `θ` is the unsigned angle
between the normalized bases, negated exactly when the signed triple product
`forward · (basis_current × basis_target)` is negative; with equal bases it
returns the identity matrix. -/
theorem rotate_stokes_basis_correct (forward bc bt : Vec3)
    (hf : vnorm forward = 1) (hbc : bc ≠ 0) (hbt : bt ≠ 0)
    (hoc : dot forward bc = 0) (hot : dot forward bt = 0) :
    0 ≤ unit_angle (normalize bc) (normalize bt) ∧
    rotate_stokes_basis forward bc bt =
      rotator (if dot forward (cross bc bt) < 0
               then -unit_angle (normalize bc) (normalize bt)
               else unit_angle (normalize bc) (normalize bt)) ∧
    rotate_stokes_basis forward bc bc = 1 := by
  refine ⟨Real.arccos_nonneg _, ?_, ?_⟩
  · simp only [rotate_stokes_basis, mul_neg_one]
  · have hdot0 : dot forward (cross bc bc) = 0 := by
      rw [cross_self]
      simp [dot, Vec3.zero_def]
    have hangle : unit_angle (normalize bc) (normalize bc) = 0 := by
      rw [unit_angle, dot_normalize_self bc hbc, Real.arccos_one]
    simp only [rotate_stokes_basis, hdot0, lt_irrefl, if_false, hangle, rotator_zero]

/-- Claim C1 (witness): instantiated at `forward = (0,0,1)` and the basis
`(1,0,0)`, where the realignment is the identity matrix. -/
theorem rotate_stokes_basis_correct_witness :
    vnorm ⟨0, 0, 1⟩ = 1 ∧
    rotate_stokes_basis ⟨0, 0, 1⟩ ⟨1, 0, 0⟩ ⟨1, 0, 0⟩ = 1 := by
  have hf : vnorm (⟨0, 0, 1⟩ : Vec3) = 1 := by
    norm_num [vnorm, dot]
  have hbc : (⟨1, 0, 0⟩ : Vec3) ≠ 0 := by
    intro hc
    rw [Vec3.zero_def, Vec3.mk.injEq] at hc
    exact one_ne_zero hc.1
  exact ⟨hf,
    (rotate_stokes_basis_correct ⟨0, 0, 1⟩ ⟨1, 0, 0⟩ ⟨1, 0, 0⟩ hf hbc hbc
      (by norm_num [dot]) (by norm_num [dot])).2.2⟩

/-- Claim C8: with identical input and output frame arguments,
`rotate_mueller_basis` coincides with `rotate_mueller_basis_collinear`, which
equals `R · M · Rᵀ` for the single `R = rotate_stokes_basis`. -/
theorem rotate_mueller_basis_collinear_coincide (M : M4) (forward bc bt : Vec3)
    (hf : vnorm forward = 1) (hoc : dot forward bc = 0) (hot : dot forward bt = 0) :
    rotate_mueller_basis M forward bc bt forward bc bt =
      rotate_mueller_basis_collinear M forward bc bt ∧
    rotate_mueller_basis_collinear M forward bc bt =
      rotate_stokes_basis forward bc bt * M * (rotate_stokes_basis forward bc bt)ᵀ :=
  ⟨rfl, rfl⟩

/-- Claim C8 (witness): instantiated at `M = 1`, `forward = (0,0,1)`,
`basis_current = (1,0,0)`, `basis_target = (0,1,0)`. -/
theorem rotate_mueller_basis_collinear_coincide_witness :
    rotate_mueller_basis 1 ⟨0, 0, 1⟩ ⟨1, 0, 0⟩ ⟨0, 1, 0⟩ ⟨0, 0, 1⟩ ⟨1, 0, 0⟩ ⟨0, 1, 0⟩ =
      rotate_mueller_basis_collinear 1 ⟨0, 0, 1⟩ ⟨1, 0, 0⟩ ⟨0, 1, 0⟩ ∧
    rotate_mueller_basis_collinear 1 ⟨0, 0, 1⟩ ⟨1, 0, 0⟩ ⟨0, 1, 0⟩ =
      rotate_stokes_basis ⟨0, 0, 1⟩ ⟨1, 0, 0⟩ ⟨0, 1, 0⟩ * 1 *
        (rotate_stokes_basis ⟨0, 0, 1⟩ ⟨1, 0, 0⟩ ⟨0, 1, 0⟩)ᵀ :=
  rotate_mueller_basis_collinear_coincide 1 ⟨0, 0, 1⟩ ⟨1, 0, 0⟩ ⟨0, 1, 0⟩
    (by norm_num [vnorm, dot]) (by norm_num [dot]) (by norm_num [dot])

/-- Claim C4: whenever the joint reflectance `c = sqrt(r_s · r_p)` computed
from the Fresnel amplitudes is zero, the masked `sin_delta`/`cos_delta` values
are replaced by zero and the lower-right 2×2 block of `specular_reflection`
(the phase-coupled entries) is exactly zero. -/
theorem specular_reflection_zero_joint_reflectance (fresnel : ℝ → ℂ → FresnelResult)
    (cos_theta_i : ℝ) (eta : ℂ)
    (hc : joint_reflectance (fresnel cos_theta_i eta).a_s (fresnel cos_theta_i eta).a_p = 0) :
    masked_sin_delta (fresnel cos_theta_i eta).a_s (fresnel cos_theta_i eta).a_p = 0 ∧
    masked_cos_delta (fresnel cos_theta_i eta).a_s (fresnel cos_theta_i eta).a_p = 0 ∧
    specular_reflection fresnel cos_theta_i eta 2 2 = 0 ∧
    specular_reflection fresnel cos_theta_i eta 2 3 = 0 ∧
    specular_reflection fresnel cos_theta_i eta 3 2 = 0 ∧
    specular_reflection fresnel cos_theta_i eta 3 3 = 0 := by
  have hs : masked_sin_delta (fresnel cos_theta_i eta).a_s (fresnel cos_theta_i eta).a_p = 0 := by
    rw [masked_sin_delta, if_pos hc]
  have hcd : masked_cos_delta (fresnel cos_theta_i eta).a_s (fresnel cos_theta_i eta).a_p = 0 := by
    rw [masked_cos_delta, if_pos hc]
  refine ⟨hs, hcd, ?_, ?_, ?_, ?_⟩ <;>
    simp [specular_reflection, hc, hs, hcd, Matrix.vecHead, Matrix.vecTail,
      Matrix.cons_val_two, Matrix.cons_val_three]

/-- A trivial Fresnel collaborator producing zero amplitudes, used to
instantiate the degenerate-reflectance case. -/
def fresnelZero : ℝ → ℂ → FresnelResult :=
  fun _ _ => ⟨0, 0, 0, 0, 0⟩

/-- Claim C4 (witness): instantiated with a Fresnel collaborator returning
zero amplitudes, for which the joint reflectance vanishes. -/
theorem specular_reflection_zero_joint_reflectance_witness :
    masked_sin_delta (fresnelZero 1 2).a_s (fresnelZero 1 2).a_p = 0 ∧
    masked_cos_delta (fresnelZero 1 2).a_s (fresnelZero 1 2).a_p = 0 ∧
    specular_reflection fresnelZero 1 2 2 2 = 0 ∧
    specular_reflection fresnelZero 1 2 2 3 = 0 ∧
    specular_reflection fresnelZero 1 2 3 2 = 0 ∧
    specular_reflection fresnelZero 1 2 3 3 = 0 :=
  specular_reflection_zero_joint_reflectance fresnelZero 1 2
    (by simp [joint_reflectance, fresnelZero])

/-- Claim C5: the unit-conversion factor of `specular_transmission` is
`−eta_it · (cos_theta_t / cos_theta_i)` when `|cos_theta_i| > 1e-8` and `0`
otherwise, and when `|cos_theta_i| ≤ 1e-8` the whole returned matrix is the
zero matrix. -/
theorem specular_transmission_factor_grazing (fresnel : ℝ → ℝ → FresnelResult)
    (cos_theta_i eta : ℝ) :
    (|cos_theta_i| > 1e-8 →
      transmission_factor (fresnel cos_theta_i eta) cos_theta_i =
        -(fresnel cos_theta_i eta).eta_it *
          ((fresnel cos_theta_i eta).cos_theta_t / cos_theta_i)) ∧
    (|cos_theta_i| ≤ 1e-8 →
      transmission_factor (fresnel cos_theta_i eta) cos_theta_i = 0 ∧
      specular_transmission fresnel cos_theta_i eta = 0) := by
  constructor
  · intro h
    rw [transmission_factor, if_pos h]
  · intro h
    have hfac : transmission_factor (fresnel cos_theta_i eta) cos_theta_i = 0 := by
      rw [transmission_factor, if_neg (not_lt.mpr h), mul_zero]
    refine ⟨hfac, ?_⟩
    ext i j
    fin_cases i <;> fin_cases j <;>
      simp [specular_transmission, hfac, Matrix.vecHead, Matrix.vecTail]

/-- A trivial Fresnel collaborator for the transmission side, used to
instantiate the degenerate-incidence case. -/
def fresnelZeroT : ℝ → ℝ → FresnelResult :=
  fun _ _ => ⟨0, 0, 0, 0, 0⟩

/-- Claim C5 (witness): at `cos_theta_i = 0` the factor is zero and the
transmission matrix is the zero matrix. -/
theorem specular_transmission_factor_grazing_witness :
    transmission_factor (fresnelZeroT 0 2) 0 = 0 ∧
    specular_transmission fresnelZeroT 0 2 = 0 :=
  (specular_transmission_factor_grazing fresnelZeroT 0 2).2 (by norm_num)

/-- Claim C6: at normal incidence with `eta = 1.5`, under the Fresnel
collaborator contract `|a_s|² = |a_p|² = ((eta−1)/(eta+1))²`, the `(0,0)`
entry of `specular_reflection` is the scalar Fresnel reflectance and the
off-diagonal diattenuation entries vanish. -/
theorem specular_reflection_normal_incidence (fresnel : ℝ → ℂ → FresnelResult)
    (h_s : Complex.abs (fresnel 1 1.5).a_s ^ 2 = ((1.5 - 1) / (1.5 + 1)) ^ 2)
    (h_p : Complex.abs (fresnel 1 1.5).a_p ^ 2 = ((1.5 - 1) / (1.5 + 1)) ^ 2) :
    specular_reflection fresnel 1 1.5 0 0 = ((1.5 - 1) / (1.5 + 1)) ^ 2 ∧
    specular_reflection fresnel 1 1.5 0 1 = 0 ∧
    specular_reflection fresnel 1 1.5 1 0 = 0 := by
  have hrs : Complex.abs ((fresnel 1 1.5).a_s ^ 2) = ((1.5 - 1) / (1.5 + 1)) ^ 2 := by
    rw [map_pow, h_s]
  have hrp : Complex.abs ((fresnel 1 1.5).a_p ^ 2) = ((1.5 - 1) / (1.5 + 1)) ^ 2 := by
    rw [map_pow, h_p]
  refine ⟨?_, ?_, ?_⟩ <;>
    simp [specular_reflection, hrs, hrp, Matrix.vecHead, Matrix.vecTail] <;>
    ring

/-- A Fresnel collaborator realizing the normal-incidence contract for
`eta = 1.5`: both amplitudes have magnitude `1/5`. -/
noncomputable def fresnelNormal : ℝ → ℂ → FresnelResult :=
  fun _ _ => ⟨((1 / 5 : ℝ) : ℂ), ((1 / 5 : ℝ) : ℂ), 0, 0, 0⟩

/-- Claim C6 (witness): instantiated with a Fresnel collaborator whose
amplitudes have magnitude `1/5 = (1.5−1)/(1.5+1)`. -/
theorem specular_reflection_normal_incidence_witness :
    specular_reflection fresnelNormal 1 1.5 0 0 = ((1.5 - 1) / (1.5 + 1)) ^ 2 ∧
    specular_reflection fresnelNormal 1 1.5 0 1 = 0 ∧
    specular_reflection fresnelNormal 1 1.5 1 0 = 0 :=
  specular_reflection_normal_incidence fresnelNormal
    (by simp [fresnelNormal, Complex.abs_ofReal]; norm_num)
    (by simp [fresnelNormal, Complex.abs_ofReal]; norm_num)

end mueller
